import Mathlib

/-!
Formal model of the emulated 256-bit SIMD library of faiss
(`faiss/utils/simdlib_emulated.h`).

A 256-bit register is a union of four views: 32 bytes (`u8`), 16
16-bit lanes (`u16`), 8 32-bit lanes (`u32`), 8 floats (`f32`).  Each
operation of the library reads and writes the register through exactly
one of those views, so we model each vector struct by the view it
operates on: a register seen through an n-lane view is a function
`Nat → Nat`, lane `j` of the view being the value at `j` (only indices
below the lane count are meaningful; machine integers are modelled as
`Nat` with explicit truncation `% 2^w` where the C code truncates).
`lookup_2_lanes`, `bin` and the mixed-width `+` operate on the byte
view, so for those the function gives the 32 bytes of the register.
-/

namespace Faiss

namespace simd16uint16

/-- `simd16uint16::binary_func(a, b, f)`: applies `f` to the 16 `u16`
lanes of `a` and `b` pointwise. -/
def binary_func (a b : Nat → Nat) (f : Nat → Nat → Nat) : Nat → Nat :=
fun j => f (a j) (b j)

/-- `simd16uint16::operator+`: lane-wise sum, truncated to `uint16_t`
by the lambda's return conversion. -/
def add (a b : Nat → Nat) : Nat → Nat :=
binary_func a b (fun x y => (x + y) % 65536)

/-- `simd16uint16::operator-`: lane-wise difference on `uint16_t`,
which wraps modulo `2^16` (here written for lane values below `2^16`). -/
def sub (a b : Nat → Nat) : Nat → Nat :=
binary_func a b (fun x y => (x + 65536 - y) % 65536)

/-- `simd16uint16::ge_mask(thresh)`: the loop `for j < 16: if u16[j] >=
thresh.u16[j] then gem |= 3 << (j * 2)` starting from `gem = 0`. -/
def ge_mask (a thresh : Nat → Nat) : Nat :=
(List.range 16).foldl
  (fun gem j => if thresh j ≤ a j then gem ||| (3 <<< (j * 2)) else gem) 0

/-- `simd16uint16::le_mask(thresh)`: `thresh.ge_mask(*this)`. -/
def le_mask (a thresh : Nat → Nat) : Nat := ge_mask thresh a

/-- `simd16uint16::gt_mask(thresh)`: `~le_mask(thresh)` on `uint32_t`,
i.e. complement of the 32 bits. -/
def gt_mask (a thresh : Nat → Nat) : Nat := le_mask a thresh ^^^ 0xFFFFFFFF

/-- `simd16uint16::all_gt(thresh)`: `le_mask(thresh) == 0`. -/
def all_gt (a thresh : Nat → Nat) : Bool := le_mask a thresh == 0

/-- `simd16uint16::accu_min(incoming)`: in place, each lane of the
receiver is replaced by `incoming.u16[j]` when that is smaller; modelled
by returning the new receiver state. -/
def accu_min (s incoming : Nat → Nat) : Nat → Nat :=
fun j => if incoming j < s j then incoming j else s j

/-- `simd16uint16::accu_max(incoming)`: in place, each lane of the
receiver is replaced by `incoming.u16[j]` when that is larger; modelled
by returning the new receiver state. -/
def accu_max (s incoming : Nat → Nat) : Nat → Nat :=
fun j => if s j < incoming j then incoming j else s j

end simd16uint16

/-- free function `min(av, bv)`: elementwise `std::min` over the 16
`u16` lanes. -/
protected def min (av bv : Nat → Nat) : Nat → Nat :=
simd16uint16.binary_func av bv (fun a b => Nat.min a b)

/-- free function `max(av, bv)`: elementwise `std::max` over the 16
`u16` lanes. -/
protected def max (av bv : Nat → Nat) : Nat → Nat :=
simd16uint16.binary_func av bv (fun a b => Nat.max a b)

/-- free function `combine2x2(a, b)`: `c.u16[j] = a.u16[j] + a.u16[j+8]`
and `c.u16[j+8] = b.u16[j] + b.u16[j+8]` for `j < 8`, the sums truncated
to `uint16_t` by the assignment. -/
def combine2x2 (a b : Nat → Nat) : Nat → Nat :=
fun j =>
  if j < 8 then (a j + a (j + 8)) % 65536
  else (b (j - 8) + b j) % 65536

/-- free function `cmp_ge32(d0, d1, thr)`: the loop `for j < 16:
if d0.u16[j] >= thr.u16[j] then gem |= 1 << j; if d1.u16[j] >=
thr.u16[j] then gem |= 1 << (j + 16)` starting from `gem = 0`. -/
def cmp_ge32 (d0 d1 thr : Nat → Nat) : Nat :=
(List.range 16).foldl
  (fun gem j =>
    let g1 := if thr j ≤ d0 j then gem ||| (1 <<< j) else gem
    if thr j ≤ d1 j then g1 ||| (1 <<< (j + 16)) else g1) 0

/-- free function `cmp_le32(d0, d1, thr)`: as `cmp_ge32` with `<=` in
place of `>=`. -/
def cmp_le32 (d0 d1 thr : Nat → Nat) : Nat :=
(List.range 16).foldl
  (fun gem j =>
    let g1 := if d0 j ≤ thr j then gem ||| (1 <<< j) else gem
    if d1 j ≤ thr j then g1 ||| (1 <<< (j + 16)) else g1) 0

namespace simd32uint8

/-- `simd32uint8::binary_func(a, b, f)`: applies `f` to the 32 `u8`
lanes of `a` and `b` pointwise. -/
def binary_func (a b : Nat → Nat) (f : Nat → Nat → Nat) : Nat → Nat :=
fun j => f (a j) (b j)

/-- `simd32uint8::operator+`: byte-wise sum, truncated to `uint8_t`
by the lambda's return conversion. -/
def add (a b : Nat → Nat) : Nat → Nat :=
binary_func a b (fun x y => (x + y) % 256)

/-- the `simd32uint8(simd256bit)` conversion: the copy constructor
`memcpy`s the 32 bytes, i.e. reinterprets the register unchanged. -/
def reinterpret (r : Nat → Nat) : Nat → Nat := fun k => r k

/-- `simd32uint8::operator+(simd16uint16)`: the `simd16uint16` argument
is converted through `simd256bit` (byte reinterpretation) and fed to the
byte-wise `binary_func` with the same `a + b` lambda returning
`uint8_t`; here `b` is the argument register given by its 32 bytes. -/
def addU16 (a b : Nat → Nat) : Nat → Nat :=
binary_func a (reinterpret b) (fun x y => (x + y) % 256)

/-- `simd32uint8::lookup_2_lanes(idx)`: for each `j < 32`, output byte
`j` is 0 when `idx.u8[j] & 0x80` is non-zero, else `u8[i]` (`j < 16`) or
`u8[16 + i]` (`j >= 16`) where `i = idx.u8[j] & 15`; the register `v`
and index vector `idx` are given by their 32 bytes. -/
def lookup_2_lanes (v idx : Nat → Nat) : Nat → Nat :=
fun j =>
  if idx j &&& 0x80 ≠ 0 then 0
  else
    if j < 16 then v (idx j &&& 15) else v (16 + (idx j &&& 15))

end simd32uint8

namespace simd256bit

/-- `simd256bit::bin()`: the 256-character debug dump; character `i` is
`'0' + ((bytes[i / 8] >> (i % 8)) & 1)`, the register given by its 32
bytes. -/
def bin (r : Nat → Nat) : List Char :=
(List.range 256).map (fun i => Char.ofNat ('0'.toNat + ((r (i / 8) >>> (i % 8)) &&& 1)))

end simd256bit

/-- free function `unpacklo(a, b)` on `simd8float32`: the float lanes
are only copied, never combined arithmetically, so a lane is modelled by
its 32-bit contents; `c = {a0, b0, a1, b1, a4, b4, a5, b5}`. -/
def unpacklo (a b : Nat → Nat) : Nat → Nat :=
fun i =>
  match i with
  | 0 => a 0
  | 1 => b 0
  | 2 => a 1
  | 3 => b 1
  | 4 => a 4
  | 5 => b 4
  | 6 => a 5
  | 7 => b 5
  | _ => 0

/-- free function `unpackhi(a, b)` on `simd8float32`:
`c = {a2, b2, a3, b3, a6, b6, a7, b7}`. -/
def unpackhi (a b : Nat → Nat) : Nat → Nat :=
fun i =>
  match i with
  | 0 => a 2
  | 1 => b 2
  | 2 => a 3
  | 3 => b 3
  | 4 => a 6
  | 5 => b 6
  | 6 => a 7
  | 7 => b 7
  | _ => 0

/-- concrete test register whose lane `k` holds `k`, used to
instantiate the universally quantified statements below. -/
def idSeq : Nat → Nat := fun k => k

/-! ### Bit-level helper lemmas for the mask-building folds -/

lemma testBit_foldl_lor (m : Nat → Nat) (l : List Nat) (acc k : Nat) :
    Nat.testBit (l.foldl (fun g j => g ||| m j) acc) k
      = (Nat.testBit acc k || l.any (fun j => Nat.testBit (m j) k)) := by
  induction l generalizing acc with
  | nil => simp
  | cons x xs ih =>
    simp [List.foldl_cons, ih, Nat.testBit_lor, Bool.or_assoc]

lemma testBit_three_shift (j k : Nat) :
    Nat.testBit (3 <<< (j * 2)) k = decide (k / 2 = j) := by
  rw [Nat.testBit_shiftLeft]
  by_cases h : k / 2 = j
  · subst h
    have h2 : k ≥ k / 2 * 2 := by omega
    have h3 : k - k / 2 * 2 = k % 2 := by omega
    have h4 : k % 2 = 0 ∨ k % 2 = 1 := by omega
    simp only [ge_iff_le, h2, decide_True, Bool.true_and, h3]
    rcases h4 with h4 | h4 <;> rw [h4] <;> decide
  · simp only [decide_eq_false h]
    by_cases h5 : j * 2 ≤ k
    · have h6 : 2 ≤ k - j * 2 := by omega
      have h7 : (3 : Nat) < 2 ^ (k - j * 2) :=
        lt_of_lt_of_le (by norm_num)
          (Nat.pow_le_pow_right (by norm_num) h6)
      simp [Nat.testBit_lt_two_pow h7]
    · have h8 : ¬ (k ≥ j * 2) := h5
      simp [h8]

lemma testBit_one_shift (i k : Nat) :
    Nat.testBit (1 <<< i) k = decide (k = i) := by
  rw [Nat.testBit_shiftLeft]
  by_cases h : k = i
  · subst h
    simp
  · by_cases h2 : i ≤ k
    · have h3 : 1 ≤ k - i := by omega
      have h4 : (1 : Nat) < 2 ^ (k - i) :=
        lt_of_lt_of_le (by norm_num)
          (Nat.pow_le_pow_right (by norm_num) h3)
      simp [Nat.testBit_lt_two_pow h4, h]
    · have h5 : ¬ (k ≥ i) := h2
      simp [h5, h]

lemma testBit_cond_one_shift (c : Prop) [Decidable c] (i k : Nat) :
    Nat.testBit (if c then 1 <<< i else 0) k = (decide c && decide (k = i)) := by
  by_cases h : c
  · rw [if_pos h, testBit_one_shift]
    simp [h]
  · rw [if_neg h]
    simp [h]

lemma ge_mask_eq_foldl_lor (a t : Nat → Nat) :
    simd16uint16.ge_mask a t
      = (List.range 16).foldl
          (fun g j => g ||| (if t j ≤ a j then 3 <<< (j * 2) else 0)) 0 := by
  unfold simd16uint16.ge_mask
  congr 1
  funext g j
  by_cases h : t j ≤ a j <;> simp [h]

lemma testBit_ge_mask (a t : Nat → Nat) (k : Nat) :
    Nat.testBit (simd16uint16.ge_mask a t) k
      = (decide (k < 32) && decide (t (k / 2) ≤ a (k / 2))) := by
  rw [ge_mask_eq_foldl_lor, testBit_foldl_lor]
  simp only [Nat.zero_testBit, Bool.false_or]
  by_cases hk : k < 32
  · by_cases hc : t (k / 2) ≤ a (k / 2)
    · simp only [hk, hc, decide_True, Bool.and_self]
      rw [List.any_eq_true]
      refine ⟨k / 2, by simp only [List.mem_range]; omega, ?_⟩
      rw [if_pos hc, testBit_three_shift]
      simp
    · simp only [hc, decide_False, Bool.and_false]
      rw [List.any_eq_false]
      intro j _
      by_cases hj2 : j = k / 2
      · rw [hj2, if_neg hc]
        simp
      · by_cases hcj : t j ≤ a j
        · rw [if_pos hcj, testBit_three_shift]
          simp only [decide_eq_true_eq]
          omega
        · rw [if_neg hcj]
          simp
  · simp only [hk, decide_False, Bool.false_and]
    rw [List.any_eq_false]
    intro j hj
    have hj16 : j < 16 := List.mem_range.mp hj
    by_cases hcj : t j ≤ a j
    · rw [if_pos hcj, testBit_three_shift]
      simp only [decide_eq_true_eq]
      omega
    · rw [if_neg hcj]
      simp

lemma ge_mask_eq_zero_iff (a t : Nat → Nat) :
    simd16uint16.ge_mask a t = 0 ↔ ∀ j, j < 16 → ¬ (t j ≤ a j) := by
  constructor
  · intro h j hj hc
    have hbit := testBit_ge_mask a t (2 * j)
    rw [h, Nat.zero_testBit] at hbit
    have h2 : 2 * j < 32 := by omega
    have h3 : 2 * j / 2 = j := by omega
    rw [h3] at hbit
    simp [h2, hc] at hbit
  · intro h
    apply Nat.eq_of_testBit_eq
    intro k
    rw [testBit_ge_mask, Nat.zero_testBit]
    by_cases hk : k < 32
    · have h2 := h (k / 2) (by omega)
      simp [h2]
    · simp [hk]

lemma testBit_cmp_fold (c0 c1 : Nat → Prop) [DecidablePred c0] [DecidablePred c1] (k : Nat) :
    Nat.testBit
      ((List.range 16).foldl
        (fun gem j =>
          let g1 := if c0 j then gem ||| (1 <<< j) else gem
          if c1 j then g1 ||| (1 <<< (j + 16)) else g1) 0) k
      = ((decide (k < 16) && decide (c0 k))
          || (decide (16 ≤ k ∧ k < 32) && decide (c1 (k - 16)))) := by
  have hstep :
      (fun (gem : Nat) (j : Nat) =>
          let g1 := if c0 j then gem ||| (1 <<< j) else gem
          if c1 j then g1 ||| (1 <<< (j + 16)) else g1)
        = (fun (gem : Nat) (j : Nat) =>
            gem ||| ((if c0 j then 1 <<< j else 0)
                       ||| (if c1 j then 1 <<< (j + 16) else 0))) := by
    funext gem j
    by_cases h0 : c0 j <;> by_cases h1 : c1 j <;>
      simp [h0, h1, Nat.lor_assoc]
  rw [hstep, testBit_foldl_lor]
  simp only [Nat.zero_testBit, Bool.false_or, Nat.testBit_lor, testBit_cond_one_shift]
  rw [Bool.eq_iff_iff]
  simp only [List.any_eq_true, List.mem_range, Bool.or_eq_true, Bool.and_eq_true,
    decide_eq_true_eq]
  constructor
  · rintro ⟨j, hj, ⟨hcj, rfl⟩ | ⟨hcj, rfl⟩⟩
    · exact Or.inl ⟨hj, hcj⟩
    · refine Or.inr ⟨⟨by omega, by omega⟩, ?_⟩
      have h4 : j + 16 - 16 = j := by omega
      rw [h4]
      exact hcj
  · rintro (⟨hk, hc⟩ | ⟨⟨hk1, hk2⟩, hc⟩)
    · exact ⟨k, hk, Or.inl ⟨hc, rfl⟩⟩
    · exact ⟨k - 16, by omega, Or.inr ⟨hc, by omega⟩⟩

lemma testBit_cmp_ge32 (d0 d1 thr : Nat → Nat) (k : Nat) :
    Nat.testBit (cmp_ge32 d0 d1 thr) k
      = ((decide (k < 16) && decide (thr k ≤ d0 k))
          || (decide (16 ≤ k ∧ k < 32) && decide (thr (k - 16) ≤ d1 (k - 16)))) :=
  testBit_cmp_fold (fun j => thr j ≤ d0 j) (fun j => thr j ≤ d1 j) k

lemma testBit_cmp_le32 (d0 d1 thr : Nat → Nat) (k : Nat) :
    Nat.testBit (cmp_le32 d0 d1 thr) k
      = ((decide (k < 16) && decide (d0 k ≤ thr k))
          || (decide (16 ≤ k ∧ k < 32) && decide (d1 (k - 16) ≤ thr (k - 16)))) :=
  testBit_cmp_fold (fun j => d0 j ≤ thr j) (fun j => d1 j ≤ thr j) k

/-! ### Claim theorems -/

set_option maxRecDepth 8000 in
/-- Claim C1: `lookup_2_lanes` zeroes an output byte when bit 7 of the
index byte is set, otherwise with `i = idx[j] & 0x0F` it copies `v[i]`
for output positions `j < 16` and `v[16 + i]` for `j >= 16`; hence the
low output half depends only on the low source half and the high output
half only on the high source half (lane locality). -/
theorem lookup_2_lanes_spec (v idx : Nat → Nat) (j : Nat) (hj : j < 32)
    (hidx : ∀ k, k < 32 → idx k < 256) :
    (simd32uint8.lookup_2_lanes v idx j =
      if Nat.testBit (idx j) 7 then 0
      else if j < 16 then v (idx j % 16) else v (16 + idx j % 16)) ∧
    (∀ w : Nat → Nat, (∀ k, k < 16 → v k = w k) → j < 16 →
      simd32uint8.lookup_2_lanes v idx j = simd32uint8.lookup_2_lanes w idx j) ∧
    (∀ w : Nat → Nat, (∀ k, 16 ≤ k → k < 32 → v k = w k) → 16 ≤ j →
      simd32uint8.lookup_2_lanes v idx j = simd32uint8.lookup_2_lanes w idx j) := by
  have hb : idx j < 256 := hidx j hj
  have key1 : ∀ x, x < 256 → ((x &&& 128 ≠ 0) ↔ Nat.testBit x 7 = true) := by decide
  have key2 : ∀ x, x < 256 → x &&& 15 = x % 16 := by decide
  refine ⟨?_, ?_, ?_⟩
  · unfold simd32uint8.lookup_2_lanes
    by_cases h7 : Nat.testBit (idx j) 7
    · rw [if_pos ((key1 _ hb).mpr h7), if_pos h7]
    · rw [if_neg (fun hc => h7 ((key1 _ hb).mp hc)), if_neg h7, key2 _ hb]
  · intro w hw hj16
    unfold simd32uint8.lookup_2_lanes
    by_cases hbit : idx j &&& 128 ≠ 0
    · rw [if_pos hbit, if_pos hbit]
    · rw [if_neg hbit, if_neg hbit, if_pos hj16, if_pos hj16]
      apply hw
      rw [key2 _ hb]
      omega
  · intro w hw hj16
    unfold simd32uint8.lookup_2_lanes
    by_cases hbit : idx j &&& 128 ≠ 0
    · rw [if_pos hbit, if_pos hbit]
    · have hj16n : ¬ j < 16 := by omega
      rw [if_neg hbit, if_neg hbit, if_neg hj16n, if_neg hj16n]
      apply hw
      · omega
      · rw [key2 _ hb]
        omega

/-- Claim C1, witness at `v = idx = idSeq`, `j = 0`. -/
theorem lookup_2_lanes_spec_witness :
    ((0 : Nat) < 32 ∧ (∀ k, k < 32 → idSeq k < 256)) ∧
    ((simd32uint8.lookup_2_lanes idSeq idSeq 0 =
        if Nat.testBit (idSeq 0) 7 then 0
        else if (0 : Nat) < 16 then idSeq (idSeq 0 % 16) else idSeq (16 + idSeq 0 % 16)) ∧
     (∀ w : Nat → Nat, (∀ k, k < 16 → idSeq k = w k) → (0 : Nat) < 16 →
        simd32uint8.lookup_2_lanes idSeq idSeq 0 = simd32uint8.lookup_2_lanes w idSeq 0) ∧
     (∀ w : Nat → Nat, (∀ k, 16 ≤ k → k < 32 → idSeq k = w k) → (16 : Nat) ≤ 0 →
        simd32uint8.lookup_2_lanes idSeq idSeq 0 = simd32uint8.lookup_2_lanes w idSeq 0)) :=
  ⟨⟨by decide, by decide⟩, lookup_2_lanes_spec idSeq idSeq 0 (by decide) (by decide)⟩

/-- Claim C2: `ge_mask(thresh)` sets, for each lane `j < 16`, both bits
`2j` and `2j+1` of the 32-bit result exactly when `a[j] >= thresh[j]`;
consequently `a.ge_mask(a) = 0xFFFFFFFF`. -/
theorem ge_mask_spec (a t : Nat → Nat) (j : Nat) (hj : j < 16) :
    (Nat.testBit (simd16uint16.ge_mask a t) (2 * j) = decide (t j ≤ a j) ∧
     Nat.testBit (simd16uint16.ge_mask a t) (2 * j + 1) = decide (t j ≤ a j)) ∧
    simd16uint16.ge_mask a a = 0xFFFFFFFF := by
  refine ⟨⟨?_, ?_⟩, ?_⟩
  · rw [testBit_ge_mask]
    have h1 : 2 * j < 32 := by omega
    have h2 : 2 * j / 2 = j := by omega
    simp [h1, h2]
  · rw [testBit_ge_mask]
    have h1 : 2 * j + 1 < 32 := by omega
    have h2 : (2 * j + 1) / 2 = j := by omega
    simp [h1, h2]
  · apply Nat.eq_of_testBit_eq
    intro k
    rw [testBit_ge_mask]
    rw [show (0xFFFFFFFF : Nat) = 2 ^ 32 - 1 by norm_num, Nat.testBit_two_pow_sub_one]
    simp

/-- Claim C2, witness at `a = t = idSeq`, `j = 1`. -/
theorem ge_mask_spec_witness :
    (1 : Nat) < 16 ∧
    ((Nat.testBit (simd16uint16.ge_mask idSeq idSeq) (2 * 1) = decide (idSeq 1 ≤ idSeq 1) ∧
      Nat.testBit (simd16uint16.ge_mask idSeq idSeq) (2 * 1 + 1) = decide (idSeq 1 ≤ idSeq 1)) ∧
     simd16uint16.ge_mask idSeq idSeq = 0xFFFFFFFF) :=
  ⟨by decide, ge_mask_spec idSeq idSeq 1 (by decide)⟩

/-- Claim C3: `cmp_ge32(d0, d1, thr)` packs one bit per lane: bit `j`
(`j < 16`) is set iff `d0[j] >= thr[j]` and bit `j + 16` iff
`d1[j] >= thr[j]`; `cmp_le32` is the same with `<=`; with
`d0 = [0..15]`, `d1 = [100..115]`, `thr = [5]*16`, bit `j` is set iff
`j >= 5` and bits 16..31 are all set. -/
theorem cmp32_spec (d0 d1 thr : Nat → Nat) (j : Nat) (hj : j < 16) :
    (Nat.testBit (cmp_ge32 d0 d1 thr) j = decide (thr j ≤ d0 j) ∧
     Nat.testBit (cmp_ge32 d0 d1 thr) (j + 16) = decide (thr j ≤ d1 j)) ∧
    (Nat.testBit (cmp_le32 d0 d1 thr) j = decide (d0 j ≤ thr j) ∧
     Nat.testBit (cmp_le32 d0 d1 thr) (j + 16) = decide (d1 j ≤ thr j)) ∧
    (Nat.testBit (cmp_ge32 idSeq (fun i => 100 + i) (fun _ => 5)) j = decide (5 ≤ j) ∧
     Nat.testBit (cmp_ge32 idSeq (fun i => 100 + i) (fun _ => 5)) (j + 16) = true) := by
  have h1 : ¬ (j + 16 < 16) := by omega
  have h2 : 16 ≤ j + 16 ∧ j + 16 < 32 := by omega
  have h3 : j + 16 - 16 = j := by omega
  have h4 : ¬ (16 ≤ j ∧ j < 32) := by omega
  refine ⟨⟨?_, ?_⟩, ⟨?_, ?_⟩, ?_, ?_⟩
  · rw [testBit_cmp_ge32]
    simp [hj, h4]
  · rw [testBit_cmp_ge32]
    simp [h1, h2, h3]
  · rw [testBit_cmp_le32]
    simp [hj, h4]
  · rw [testBit_cmp_le32]
    simp [h1, h2, h3]
  · rw [testBit_cmp_ge32]
    simp [hj, h4, idSeq]
  · rw [testBit_cmp_ge32]
    have h5 : (5 : Nat) ≤ 100 + j := by omega
    simp [h1, h2, h3, h5]

/-- Claim C3, witness at `d0 = idSeq`, `d1 = 100 + idSeq`,
`thr = [5]*16`, `j = 4`. -/
theorem cmp32_spec_witness :
    (4 : Nat) < 16 ∧
    ((Nat.testBit (cmp_ge32 idSeq (fun i => 100 + i) (fun _ => 5)) 4 =
        decide ((fun _ : Nat => 5) 4 ≤ idSeq 4) ∧
      Nat.testBit (cmp_ge32 idSeq (fun i => 100 + i) (fun _ => 5)) (4 + 16) =
        decide ((fun _ : Nat => 5) 4 ≤ (fun i : Nat => 100 + i) 4)) ∧
     (Nat.testBit (cmp_le32 idSeq (fun i => 100 + i) (fun _ => 5)) 4 =
        decide (idSeq 4 ≤ (fun _ : Nat => 5) 4) ∧
      Nat.testBit (cmp_le32 idSeq (fun i => 100 + i) (fun _ => 5)) (4 + 16) =
        decide ((fun i : Nat => 100 + i) 4 ≤ (fun _ : Nat => 5) 4)) ∧
     (Nat.testBit (cmp_ge32 idSeq (fun i => 100 + i) (fun _ => 5)) 4 = decide (5 ≤ 4) ∧
      Nat.testBit (cmp_ge32 idSeq (fun i => 100 + i) (fun _ => 5)) (4 + 16) = true)) :=
  ⟨by decide, cmp32_spec idSeq (fun i => 100 + i) (fun _ => 5) 4 (by decide)⟩

/-- Claim C4: `le_mask` is `ge_mask` with the operands swapped,
`gt_mask` is the 32-bit complement of `le_mask`, and `all_gt` holds iff
`le_mask` is zero, i.e. iff every lane of the receiver strictly exceeds
the threshold lane; in particular `a.all_gt(a)` is false. -/
theorem mask_all_gt_spec (a b : Nat → Nat) (k : Nat) (hk : k < 32) :
    simd16uint16.le_mask a b = simd16uint16.ge_mask b a ∧
    Nat.testBit (simd16uint16.gt_mask a b) k = !Nat.testBit (simd16uint16.le_mask a b) k ∧
    (simd16uint16.all_gt a b = true ↔ simd16uint16.le_mask a b = 0) ∧
    (simd16uint16.all_gt a b = true ↔ ∀ j, j < 16 → b j < a j) ∧
    simd16uint16.all_gt a a = false := by
  refine ⟨rfl, ?_, ?_, ?_, ?_⟩
  · unfold simd16uint16.gt_mask
    rw [Nat.testBit_xor]
    rw [show (0xFFFFFFFF : Nat) = 2 ^ 32 - 1 by norm_num, Nat.testBit_two_pow_sub_one]
    simp [hk]
  · simp [simd16uint16.all_gt]
  · simp only [simd16uint16.all_gt, simd16uint16.le_mask, beq_iff_eq]
    rw [ge_mask_eq_zero_iff]
    constructor
    · intro h j hj
      have := h j hj
      omega
    · intro h j hj
      have := h j hj
      omega
  · simp only [simd16uint16.all_gt, simd16uint16.le_mask]
    have h0 : ¬ (simd16uint16.ge_mask a a = 0) := by
      rw [ge_mask_eq_zero_iff]
      intro h
      exact h 0 (by omega) (Nat.le_refl _)
    simp [h0]

/-- Claim C4, witness at `a = b = idSeq`, `k = 0`. -/
theorem mask_all_gt_spec_witness :
    (0 : Nat) < 32 ∧
    (simd16uint16.le_mask idSeq idSeq = simd16uint16.ge_mask idSeq idSeq ∧
     Nat.testBit (simd16uint16.gt_mask idSeq idSeq) 0 =
       !Nat.testBit (simd16uint16.le_mask idSeq idSeq) 0 ∧
     (simd16uint16.all_gt idSeq idSeq = true ↔ simd16uint16.le_mask idSeq idSeq = 0) ∧
     (simd16uint16.all_gt idSeq idSeq = true ↔ ∀ j, j < 16 → idSeq j < idSeq j) ∧
     simd16uint16.all_gt idSeq idSeq = false) :=
  ⟨by decide, mask_all_gt_spec idSeq idSeq 0 (by decide)⟩

set_option maxRecDepth 8000 in
/-- Claim C8: the binary dump is 256 characters, character `i` being
`'1'` exactly when bit `i mod 8` of byte `i div 8` is set
(least-significant-bit first); an all-zero register dumps to 256 `'0'`s
and an all-`0xFF` register to 256 `'1'`s. -/
theorem bin_spec (r : Nat → Nat) (i : Nat) (hi : i < 256) :
    (simd256bit.bin r).length = 256 ∧
    (simd256bit.bin r)[i]? =
      some (if Nat.testBit (r (i / 8)) (i % 8) then '1' else '0') ∧
    simd256bit.bin (fun _ => 0) = List.replicate 256 '0' ∧
    simd256bit.bin (fun _ => 0xFF) = List.replicate 256 '1' := by
  refine ⟨by simp [simd256bit.bin], ?_, by decide, by decide⟩
  unfold simd256bit.bin
  rw [List.getElem?_map]
  simp only [List.getElem?_range hi, Option.map_some']
  have hb : (r (i / 8) >>> (i % 8)) &&& 1 = r (i / 8) / 2 ^ (i % 8) % 2 := by
    rw [Nat.and_one_is_mod, Nat.shiftRight_eq_div_pow]
  rw [hb, Nat.testBit_to_div_mod]
  by_cases h : r (i / 8) / 2 ^ (i % 8) % 2 = 1
  · rw [h, if_pos (by simp [h])]
    decide
  · have h0 : r (i / 8) / 2 ^ (i % 8) % 2 = 0 := by omega
    rw [h0, if_neg (by simp [h])]
    decide

/-- Claim C8, witness at the all-zero register, `i = 0`. -/
theorem bin_spec_witness :
    (0 : Nat) < 256 ∧
    ((simd256bit.bin (fun _ => 0)).length = 256 ∧
     (simd256bit.bin (fun _ => 0))[0]? =
       some (if Nat.testBit ((fun _ : Nat => 0) (0 / 8)) (0 % 8) then '1' else '0') ∧
     simd256bit.bin (fun _ => 0) = List.replicate 256 '0' ∧
     simd256bit.bin (fun _ => 0xFF) = List.replicate 256 '1') :=
  ⟨by decide, bin_spec (fun _ => 0) 0 (by decide)⟩

/-- Claim C5: for 16-lane uint16 vectors, `(a + b) - b == a` lane for
lane, the operators wrapping modulo `2^16`. -/
theorem add_sub_cancel_spec (a b : Nat → Nat) (j : Nat) (_hj : j < 16)
    (ha : a j < 65536) (hb : b j < 65536) :
    simd16uint16.sub (simd16uint16.add a b) b j = a j := by
  simp only [simd16uint16.sub, simd16uint16.add, simd16uint16.binary_func]
  omega

/-- Claim C5, witness at `a = b = idSeq`, `j = 3`. -/
theorem add_sub_cancel_spec_witness :
    ((3 : Nat) < 16 ∧ idSeq 3 < 65536 ∧ idSeq 3 < 65536) ∧
    simd16uint16.sub (simd16uint16.add idSeq idSeq) idSeq 3 = idSeq 3 :=
  ⟨⟨by decide, by decide, by decide⟩,
   add_sub_cancel_spec idSeq idSeq 3 (by decide) (by decide) (by decide)⟩

/-- Claim C6: `combine2x2(a, b)` has lane `j < 8` equal to
`a[j] + a[j+8]` and lane `j + 8` equal to `b[j] + b[j+8]`, sums modulo
`2^16`; with `a` all-1 and `b` all-2 it yields eight 2s then eight 4s. -/
theorem combine2x2_spec (a b : Nat → Nat) (j : Nat) (hj : j < 8) :
    (combine2x2 a b j = (a j + a (j + 8)) % 65536 ∧
     combine2x2 a b (j + 8) = (b j + b (j + 8)) % 65536) ∧
    (combine2x2 (fun _ => 1) (fun _ => 2) j = 2 ∧
     combine2x2 (fun _ => 1) (fun _ => 2) (j + 8) = 4) := by
  have h8 : ¬ (j + 8 < 8) := by omega
  have h9 : j + 8 - 8 = j := by omega
  refine ⟨⟨?_, ?_⟩, ?_, ?_⟩
  · unfold combine2x2
    rw [if_pos hj]
  · unfold combine2x2
    rw [if_neg h8, h9]
  · unfold combine2x2
    rw [if_pos hj]
    norm_num
  · unfold combine2x2
    rw [if_neg h8, h9]
    norm_num

/-- Claim C6, witness at `a = (1)*16`, `b = (2)*16`, `j = 0`. -/
theorem combine2x2_spec_witness :
    (0 : Nat) < 8 ∧
    ((combine2x2 (fun _ => 1) (fun _ => 2) 0 =
        ((fun _ : Nat => 1) 0 + (fun _ : Nat => 1) (0 + 8)) % 65536 ∧
      combine2x2 (fun _ => 1) (fun _ => 2) (0 + 8) =
        ((fun _ : Nat => 2) 0 + (fun _ : Nat => 2) (0 + 8)) % 65536) ∧
     (combine2x2 (fun _ => 1) (fun _ => 2) 0 = 2 ∧
      combine2x2 (fun _ => 1) (fun _ => 2) (0 + 8) = 4)) :=
  ⟨by decide, combine2x2_spec (fun _ => 1) (fun _ => 2) 0 (by decide)⟩

/-- Claim C7: `unpacklo(a, b)` is exactly the lane permutation
`{a0, b0, a1, b1, a4, b4, a5, b5}` and `unpackhi(a, b)` is exactly
`{a2, b2, a3, b3, a6, b6, a7, b7}`, each output lane copied verbatim. -/
theorem unpack_spec (a b : Nat → Nat) :
    (unpacklo a b 0 = a 0 ∧ unpacklo a b 1 = b 0 ∧ unpacklo a b 2 = a 1 ∧
     unpacklo a b 3 = b 1 ∧ unpacklo a b 4 = a 4 ∧ unpacklo a b 5 = b 4 ∧
     unpacklo a b 6 = a 5 ∧ unpacklo a b 7 = b 5) ∧
    (unpackhi a b 0 = a 2 ∧ unpackhi a b 1 = b 2 ∧ unpackhi a b 2 = a 3 ∧
     unpackhi a b 3 = b 3 ∧ unpackhi a b 4 = a 6 ∧ unpackhi a b 5 = b 6 ∧
     unpackhi a b 6 = a 7 ∧ unpackhi a b 7 = b 7) :=
  ⟨⟨rfl, rfl, rfl, rfl, rfl, rfl, rfl, rfl⟩,
   ⟨rfl, rfl, rfl, rfl, rfl, rfl, rfl, rfl⟩⟩

/-- Claim C9: the destructive accumulators agree with the pure free
functions: after `accu_min` the receiver holds the lane-wise minimum of
its previous value and the argument, after `accu_max` the maximum. -/
theorem accu_min_max_spec (a b : Nat → Nat) (j : Nat) (_hj : j < 16) :
    simd16uint16.accu_min a b j = Faiss.min a b j ∧
    simd16uint16.accu_max a b j = Faiss.max a b j := by
  simp only [simd16uint16.accu_min, simd16uint16.accu_max, Faiss.min, Faiss.max,
    simd16uint16.binary_func, Nat.min_def, Nat.max_def]
  refine ⟨?_, ?_⟩
  · split <;> split <;> omega
  · split <;> split <;> omega

/-- Claim C9, witness at `a = b = idSeq`, `j = 2`. -/
theorem accu_min_max_spec_witness :
    (2 : Nat) < 16 ∧
    (simd16uint16.accu_min idSeq idSeq 2 = Faiss.min idSeq idSeq 2 ∧
     simd16uint16.accu_max idSeq idSeq 2 = Faiss.max idSeq idSeq 2) :=
  ⟨by decide, accu_min_max_spec idSeq idSeq 2 (by decide)⟩

/-- Claim C10: the mixed-width `simd32uint8 + simd16uint16` performs no
widening: each output byte is the wrapping byte sum of `a`'s byte and
the corresponding raw byte of `b`'s register, i.e. the operation equals
reinterpreting `b` as a `simd32uint8` and adding byte-wise. -/
theorem addU16_spec (a b : Nat → Nat) (j : Nat) (_hj : j < 32) :
    simd32uint8.addU16 a b j = (a j + b j) % 256 ∧
    simd32uint8.addU16 a b = simd32uint8.add a (simd32uint8.reinterpret b) :=
  ⟨rfl, rfl⟩

/-- Claim C10, witness at `a = b = idSeq`, `j = 0`. -/
theorem addU16_spec_witness :
    (0 : Nat) < 32 ∧
    (simd32uint8.addU16 idSeq idSeq 0 = (idSeq 0 + idSeq 0) % 256 ∧
     simd32uint8.addU16 idSeq idSeq = simd32uint8.add idSeq (simd32uint8.reinterpret idSeq)) :=
  ⟨by decide, addU16_spec idSeq idSeq 0 (by decide)⟩

end Faiss
